import Mathlib

/-
  Verification of the colprint column-formatting library.

  Shallow embedding of the Go sources (compiler.go, registry.go,
  helpers.go, colprint.go).  Go strings and byte slices are modelled as
  `List UInt8` (Go strings are byte sequences; all inputs appearing in
  the claims are ASCII).  Go `map` values are modelled as association
  lists with insert-or-overwrite update; the only place the code depends
  on map *iteration order* (the `@default` loop in parseSpec) receives
  that order as an explicit parameter `ord`, a permutation of the
  defaults entries, modelling Go's unspecified map iteration order.
  The unbounded recursion of parseSpec is modelled with explicit fuel;
  running out of fuel is marked by a dedicated error that the Go code
  itself can never produce.
-/

namespace Colprint

/-- Go byte strings (`string` / `[]byte`). -/
abbrev GoStr := List UInt8

/-- UTF-8 encoding of one character, as in Go source literals. -/
def utf8Bytes (c : Char) : List UInt8 :=
  let n := c.toNat
  if n < 0x80 then [UInt8.ofNat n]
  else if n < 0x800 then
    [UInt8.ofNat (0xC0 ||| (n >>> 6)), UInt8.ofNat (0x80 ||| (n &&& 0x3F))]
  else if n < 0x10000 then
    [UInt8.ofNat (0xE0 ||| (n >>> 12)), UInt8.ofNat (0x80 ||| ((n >>> 6) &&& 0x3F)),
     UInt8.ofNat (0x80 ||| (n &&& 0x3F))]
  else
    [UInt8.ofNat (0xF0 ||| (n >>> 18)), UInt8.ofNat (0x80 ||| ((n >>> 12) &&& 0x3F)),
     UInt8.ofNat (0x80 ||| ((n >>> 6) &&& 0x3F)), UInt8.ofNat (0x80 ||| (n &&& 0x3F))]

/-- Conversion of a Lean string literal to Go bytes. -/
def gs (s : String) : GoStr := (s.data.map utf8Bytes).flatten

/-- ASCII whitespace recognised by `strings.TrimSpace` (ASCII range of
`unicode.IsSpace`; all claim inputs are ASCII). -/
def isSpaceB (b : UInt8) : Bool := b == 32 || (9 ≤ b && b ≤ 13)

/-- `strings.TrimSpace` on ASCII input: strip leading and trailing
whitespace bytes. -/
def goTrim (s : GoStr) : GoStr :=
  ((s.dropWhile isSpaceB).reverse.dropWhile isSpaceB).reverse

/-- `strings.Split(s, ",")`: split on every comma byte; the empty string
yields one empty token, as in Go. -/
def splitComma : GoStr → List GoStr
  | [] => [[]]
  | b :: rest =>
    match splitComma rest with
    | [] => [[]]
    | t :: ts => if b == 44 then [] :: t :: ts else (b :: t) :: ts

/-- `strings.ToLower` restricted to ASCII (claim inputs are ASCII). -/
def toLowerB (s : GoStr) : GoStr :=
  s.map (fun b => if 65 ≤ b && b ≤ 90 then b + 32 else b)

/-- Decimal digits of a natural number, most significant first. -/
def natDecBytes (n : Nat) : GoStr :=
  (Nat.toDigits 10 n).map (fun c => UInt8.ofNat c.toNat)

/-- `strconv.AppendInt(_, n, 10)`: base-10 rendering of an integer
(64-bit range issues do not arise in any claim). -/
def goIntDec (n : Int) : GoStr :=
  if n < 0 then 45 :: natDecBytes n.natAbs else natDecBytes n.toNat

/-- One step of `strconv.Atoi` digit accumulation. -/
def atoiDigits (s : GoStr) : Option Nat :=
  s.foldl
    (fun (acc : Option Nat) (b : UInt8) =>
      match acc with
      | none => none
      | some n =>
        if 48 ≤ b && b ≤ 57 then some (n * 10 + (b.toNat - 48)) else none)
    (some 0)

/-- `strconv.Atoi`: optional sign followed by at least one digit
(the 64-bit range error cannot trigger on claim inputs). -/
def goAtoi (s : GoStr) : Option Int :=
  match s with
  | [] => none
  | 43 :: rest => if rest = [] then none else (atoiDigits rest).map Int.ofNat
  | 45 :: rest => if rest = [] then none else (atoiDigits rest).map (fun n => -(n : Int))
  | _ => (atoiDigits s).map Int.ofNat

/-- `Field[T]` from colprint.go.  The kind is a Go `int` (`type Kind int`,
`KindString = 1` .. `KindCustom = 4`; the zero value 0 is possible on a
zero-valued Field).  `getFloatFmt prec v` models the composite
`strconv.AppendFloat(f.GetFloat(v), 'f', prec, 64)` — the Go standard
library's float printer is an external collaborator, so the formatted
bytes at a given precision are taken as the extractor's output. -/
structure Field (α : Type) where
  name : GoStr
  display : GoStr
  description : GoStr
  width : Int
  kind : Nat
  precision : Int
  category : GoStr := []
  getString : α → GoStr := fun _ => []
  getInt : α → Int := fun _ => 0
  getFloatFmt : Int → α → GoStr := fun _ _ => []
  getCustom : GoStr → α → GoStr := fun b _ => b

def KindString : Nat := 1
def KindInt : Nat := 2
def KindFloat : Nat := 3
def KindCustom : Nat := 4

/-- The zero value of `Field[T]` (what a Go map read returns on a
missing key). -/
def zeroField (α : Type) : Field α :=
  { name := [], display := [], description := [], width := 0, kind := 0,
    precision := 0 }

/-- Insert-or-overwrite update of an association list, modelling
`m[k] = v` on a Go map. -/
def mapInsert {β : Type} : List (GoStr × β) → GoStr → β → List (GoStr × β)
  | [], k, v => [(k, v)]
  | (k0, v0) :: rest, k, v =>
    if k0 = k then (k, v) :: rest else (k0, v0) :: mapInsert rest k v

/-- Go map read with ok-flag: first matching key of the association
list (keys are unique under `mapInsert`). -/
def mapGet {β : Type} : List (GoStr × β) → GoStr → Option β
  | [], _ => none
  | (k0, v0) :: rest, k => if k0 = k then some v0 else mapGet rest k

/-- Append `v` to the slice stored at key `k` (`m[k] = append(m[k], v)`). -/
def mapAppend (m : List (GoStr × List GoStr)) (k v : GoStr) :
    List (GoStr × List GoStr) :=
  mapInsert m k ((mapGet m k).getD [] ++ [v])

/-- `Registry[T]` from registry.go.  Go maps become association lists;
the iteration order of `defaults` (the one map the code iterates) is
supplied separately to the parser. -/
structure Registry (α : Type) where
  fields : List (GoStr × Field α) := []
  index : List (GoStr × GoStr) := []
  collections : List (GoStr × List GoStr) := []
  defaults : List (GoStr × GoStr) := []
  categories : List (GoStr × List GoStr) := []

/-- `NewRegistry[T]()`. -/
def newRegistry (α : Type) : Registry α := {}

/-- `FieldBuilder.Register()`: insert the field, record the lowercase
index entry, and append the name to its category bucket. -/
def registerField {α : Type} (r : Registry α) (f : Field α) : Registry α :=
  { r with
    fields := mapInsert r.fields f.name f
    index := mapInsert r.index (toLowerB f.name) f.name
    categories :=
      mapAppend r.categories
        (if f.category = [] then gs "General" else f.category) f.name }

/-- `Registry.DefineCollection`. -/
def defineCollection {α : Type} (r : Registry α) (name defaultSpec : GoStr)
    (members : List GoStr) : Registry α :=
  { r with
    collections := mapInsert r.collections name members
    defaults := mapInsert r.defaults name defaultSpec }

/-- `Registry.SetDefaults`. -/
def setDefaults {α : Type} (r : Registry α) (name spec : GoStr) : Registry α :=
  { r with defaults := mapInsert r.defaults name spec }

/-- `Registry.get`: exact lookup, then case-insensitive lookup through
the lowercase index (the Go code reads `r.fields[canonical]` without an
ok-check, yielding the zero Field if the index entry dangles). -/
def Registry.get {α : Type} (r : Registry α) (name : GoStr) : Option (Field α) :=
  match mapGet r.fields name with
  | some f => some f
  | none =>
    match mapGet r.index (toLowerB name) with
    | some canonical => some ((mapGet r.fields canonical).getD (zeroField α))
    | none => none

/-- Compilation-time errors of compiler.go, plus `outOfFuel`, the marker
for the fuel model of parseSpec's unbounded recursion (the Go code never
produces it).  `wrapDefault` and `wrapColl` model the
`fmt.Errorf("expanding ...: %w", err)` wrappers. -/
inductive GoErr where
  | emptySpec : GoErr
  | noFieldsResolved : GoErr
  | unknownField : GoStr → GoErr
  | unknownCollection : GoStr → GoErr
  | emptyWidth : GoStr → GoErr
  | invalidWidthStr : GoStr → GoStr → GoErr
  | invalidWidthVal : Int → GoStr → GoErr
  | wrapDefault : GoErr → GoErr
  | wrapColl : GoStr → GoErr → GoErr
  | outOfFuel : GoErr
deriving DecidableEq

/-- The three width-error shapes of the code, all instances of the
spec's `InvalidWidth(token)` taxon. -/
def isInvalidWidthErr : GoErr → Bool
  | .emptyWidth _ => true
  | .invalidWidthStr _ _ => true
  | .invalidWidthVal _ _ => true
  | _ => false

/-- Does the error contain the fuel marker (under wrappers)? -/
def containsFuel : GoErr → Bool
  | .wrapDefault e => containsFuel e
  | .wrapColl _ e => containsFuel e
  | .outOfFuel => true
  | _ => false

/-- A parse result that ran out of fuel. -/
def resFuel {β : Type} : Except GoErr β → Bool
  | .error e => containsFuel e
  | .ok _ => false

/-- The literal `default` (the `@default` token body). -/
def defaultKey : GoStr := gs "default"

/-- `parseFieldSpec` from compiler.go: split a token at the first colon
into a trimmed name and optional width. -/
def parseFieldSpec (tok : GoStr) : Except GoErr (GoStr × Int × Bool) :=
  if (58 : UInt8) ∈ tok then
    let name := goTrim (tok.takeWhile (· != 58))
    let widthStr := goTrim ((tok.dropWhile (· != 58)).tail)
    if widthStr = [] then .error (.emptyWidth tok)
    else
      match goAtoi widthStr with
      | none => .error (.invalidWidthStr widthStr tok)
      | some w => .ok (name, w, true)
  else .ok (goTrim tok, 0, false)

/-- The plain-token arm of `parseSpec`: parse `name` or `name:width`,
look the field up (before the positivity check, as the code does), and
apply the width override. -/
def parsePlainTok {α : Type} (reg : Registry α) (tok : GoStr) :
    Except GoErr (Field α) :=
  match parseFieldSpec tok with
  | .error e => .error e
  | .ok (name, width, hasWidth) =>
    match reg.get name with
    | none => .error (.unknownField name)
    | some field =>
      if hasWidth then
        if width ≤ 0 then .error (.invalidWidthVal width name)
        else .ok { field with width := width }
      else .ok field

/-- The token loop of `parseSpec`.  `recur` is the recursive call at the
next fuel level; `ord` is the map iteration order used by the
`@default` arm (`for _, defSpec := range reg.defaults { ...; break }`
takes the first entry of one iteration). -/
def parseTokensF {α : Type} (reg : Registry α) (ord : List (GoStr × GoStr))
    (recur : GoStr → Except GoErr (List (Field α))) :
    List GoStr → Except GoErr (List (Field α))
  | [] => .ok []
  | t :: ts =>
    let tok := goTrim t
    if tok = [] then parseTokensF reg ord recur ts
    else if tok.head? = some 64 then
      let name := tok.tail
      if name = defaultKey then
        match ord with
        | [] => parseTokensF reg ord recur ts
        | (_, defSpec) :: _ =>
          match recur defSpec with
          | .error e => .error (.wrapDefault e)
          | .ok expanded =>
            match parseTokensF reg ord recur ts with
            | .error e => .error e
            | .ok rest => .ok (expanded ++ rest)
      else
        match mapGet reg.defaults name with
        | some defSpec =>
          match recur defSpec with
          | .error e => .error (.wrapColl name e)
          | .ok expanded =>
            match parseTokensF reg ord recur ts with
            | .error e => .error e
            | .ok rest => .ok (expanded ++ rest)
        | none => .error (.unknownCollection name)
    else
      match parsePlainTok reg tok with
      | .error e => .error e
      | .ok field =>
        match parseTokensF reg ord recur ts with
        | .error e => .error e
        | .ok rest => .ok (field :: rest)

/-- `parseSpec` from compiler.go, with fuel bounding the expansion
depth of `@`-references (the Go original recurses unboundedly). -/
def parseSpecF {α : Type} (reg : Registry α) (ord : List (GoStr × GoStr)) :
    Nat → GoStr → Except GoErr (List (Field α))
  | 0, _ => .error .outOfFuel
  | n + 1, spec => parseTokensF reg ord (parseSpecF reg ord n) (splitComma spec)

/-- `padBytesLeft` from helpers.go: append `val` to `dst`, truncating to
`width` bytes if longer, otherwise right-padding with ASCII spaces up to
`width`. -/
def padBytesLeft (dst val : GoStr) (width : Int) : GoStr :=
  if (val.length : Int) > width then dst ++ val.take width.toNat
  else (dst ++ val) ++ List.replicate (width - (val.length : Int)).toNat 32

/-- `padLeft` from helpers.go (the string wrapper over `padBytesLeft`). -/
def padLeft (dst : GoStr) (s : GoStr) (width : Int) : GoStr :=
  padBytesLeft dst s width

/-- `Options` from colprint.go. -/
structure Options where
  separator : GoStr := []
  noPadding : Bool := false
  padLastColumn : Bool := false
  noHeader : Bool := false
  noUnderline : Bool := false

/-- `compiledCol[T]`: the type-specialized column writer.  `write`
takes the line built so far and appends this column's bytes, as the Go
closure does on the `line` buffer. -/
structure CompiledCol (α : Type) where
  width : Int
  write : GoStr → α → GoStr

/-- `makeWriter` from compiler.go.  Each branch formats the value into
the scratch buffer and pads or truncates it to the column width; the
`noPad` parameter is received but used by no branch, exactly as in the
source ("Always pad all columns"). -/
def makeWriter {α : Type} (f : Field α) (_noPad : Bool) : CompiledCol α :=
  if f.kind = KindString then
    { width := f.width, write := fun line v => padLeft line (f.getString v) f.width }
  else if f.kind = KindInt then
    { width := f.width,
      write := fun line v => padBytesLeft line (goIntDec (f.getInt v)) f.width }
  else if f.kind = KindFloat then
    let prec := if f.precision < 0 then 2 else f.precision
    { width := f.width,
      write := fun line v => padBytesLeft line (f.getFloatFmt prec v) f.width }
  else if f.kind = KindCustom then
    { width := f.width,
      write := fun line v => padBytesLeft line (f.getCustom [] v) f.width }
  else
    { width := f.width,
      write := fun line _ => line ++ List.replicate f.width.toNat 32 }

/-- The loop body of `buildHeader`, with the index tracked to mirror
`i > 0` (separator) and `i == lastIdx` (last column). -/
def buildHeaderAux {α : Type} (sep : GoStr) (noPadding padLast : Bool) :
    List (Field α) → Nat → GoStr → GoStr
  | [], _, buf => buf
  | f :: rest, i, buf =>
    let buf := if i > 0 then buf ++ sep else buf
    let isLast := rest.isEmpty
    let buf :=
      if noPadding || (isLast && !padLast) then
        buf ++ (if (f.display.length : Int) > f.width
                then f.display.take f.width.toNat else f.display)
      else padLeft buf f.display f.width
    buildHeaderAux sep noPadding padLast rest (i + 1) buf

/-- `buildHeader` from compiler.go. -/
def buildHeader {α : Type} (fields : List (Field α)) (sep : GoStr)
    (noPadding padLast : Bool) : GoStr :=
  buildHeaderAux sep noPadding padLast fields 0 []

/-- `buildUnderline` from compiler.go: spaces stay spaces, every other
byte becomes a dash. -/
def buildUnderline (header : GoStr) : GoStr :=
  header.map (fun b => if b = 32 then 32 else 45)

/-- `Program[T]` from colprint.go. -/
structure Program (α : Type) where
  header : GoStr := []
  underline : GoStr := []
  separator : GoStr := []
  columns : List (CompiledCol α) := []

/-- The column-writer compilation loop of `CompileWithOptions`:
`noPad := opts.NoPadding || (isLast && !opts.PadLastColumn)`. -/
def compileCols {α : Type} (noPadding padLast : Bool) :
    List (Field α) → List (CompiledCol α)
  | [] => []
  | f :: rest =>
    makeWriter f (noPadding || (rest.isEmpty && !padLast)) ::
      compileCols noPadding padLast rest

/-- `CompileWithOptions` from compiler.go.  `ord` is the defaults-map
iteration order used for `@default`; `fuel` bounds expansion depth. -/
def compileWithOptions {α : Type} (reg : Registry α)
    (ord : List (GoStr × GoStr)) (fuel : Nat) (spec : GoStr) (opts : Options) :
    Except GoErr (Program α) :=
  if spec = [] then .error .emptySpec
  else
    match parseSpecF reg ord fuel spec with
    | .error e => .error e
    | .ok fields =>
      if fields.isEmpty then .error .noFieldsResolved
      else
        let sep := opts.separator
        let hdr := if opts.noHeader then []
                   else buildHeader fields sep opts.noPadding opts.padLastColumn
        let und := if opts.noUnderline then [] else buildUnderline hdr
        .ok { header := hdr, underline := und, separator := sep,
              columns := compileCols opts.noPadding opts.padLastColumn fields }

/-- `Compile` from compiler.go: default options with a two-space
separator. -/
def compileDefault {α : Type} (reg : Registry α) (ord : List (GoStr × GoStr))
    (fuel : Nat) (spec : GoStr) : Except GoErr (Program α) :=
  compileWithOptions reg ord fuel spec { separator := gs "  " }

/-- The column loop of `Program.FormatRow`. -/
def formatRowAux {α : Type} (sep : GoStr) (v : α) :
    List (CompiledCol α) → Nat → GoStr → GoStr
  | [], _, line => line
  | c :: rest, i, line =>
    formatRowAux sep v rest (i + 1) (c.write (if i > 0 then line ++ sep else line) v)

/-- `Program.FormatRow`: the row bytes, returned as a string, no
newline. -/
def formatRow {α : Type} (p : Program α) (v : α) : GoStr :=
  formatRowAux p.separator v p.columns 0 []

/-- The column loop of `Program.WriteRow` (textually the same loop as
`FormatRow`, embedded separately to compare the two entry points). -/
def writeRowAux {α : Type} (sep : GoStr) (v : α) :
    List (CompiledCol α) → Nat → GoStr → GoStr
  | [], _, line => line
  | c :: rest, i, line =>
    writeRowAux sep v rest (i + 1) (c.write (if i > 0 then line ++ sep else line) v)

/-- `Program.WriteRow`: the sink is observed as the list of payloads of
its write calls; the function assembles the full line plus a newline and
issues a single `w.Write`. -/
def writeRowChunks {α : Type} (p : Program α) (v : α) : List GoStr :=
  [writeRowAux p.separator v p.columns 0 [] ++ [10]]

/-- `Program.WriteHeader`: one write call of header plus newline. -/
def writeHeaderChunks {α : Type} (p : Program α) : List GoStr :=
  [p.header ++ [10]]

/-- `Program.WriteUnderline`: one write call of underline plus newline. -/
def writeUnderlineChunks {α : Type} (p : Program α) : List GoStr :=
  [p.underline ++ [10]]

/-- The value bytes a column writer formats before padding/truncation,
branch for branch as in `makeWriter` (`none` for a kind outside the Go
enum, whose defensive branch emits spaces without formatting a value). -/
def formattedValue {α : Type} (f : Field α) (v : α) : Option GoStr :=
  if f.kind = KindString then some (f.getString v)
  else if f.kind = KindInt then some (goIntDec (f.getInt v))
  else if f.kind = KindFloat then
    some (f.getFloatFmt (if f.precision < 0 then 2 else f.precision) v)
  else if f.kind = KindCustom then some (f.getCustom [] v)
  else none

/-- Right-trim trailing ASCII spaces (the round-trip operation of the
padding claim). -/
def rtrimSpaces (s : GoStr) : GoStr :=
  (s.reverse.dropWhile (· == 32)).reverse

/-- `Registry.Field(name, display, description)`: a builder seed with
the default width 10 and the zero kind. -/
def bField (α : Type) (name display description : GoStr) : Field α :=
  { name := name, display := display, description := description,
    width := 10, kind := 0, precision := 0 }

/-- `FieldBuilder.Width`. -/
def bWidth {α : Type} (f : Field α) (w : Int) : Field α := { f with width := w }

/-- `FieldBuilder.String`. -/
def bString {α : Type} (f : Field α) (fn : α → GoStr) : Field α :=
  { f with kind := KindString, getString := fn }

/-- `FieldBuilder.Int`. -/
def bInt {α : Type} (f : Field α) (fn : α → Int) : Field α :=
  { f with kind := KindInt, getInt := fn }

/-- `FieldBuilder.Float(precision, fn)`: the extractor composed with the
stdlib float printer is supplied as the precision-indexed byte
formatter. -/
def bFloat {α : Type} (f : Field α) (prec : Int) (fn : Int → α → GoStr) : Field α :=
  { f with kind := KindFloat, precision := prec, getFloatFmt := fn }

/-- `FieldBuilder.Custom`. -/
def bCustom {α : Type} (f : Field α) (fn : GoStr → α → GoStr) : Field α :=
  { f with kind := KindCustom, getCustom := fn }

/-- The example record type of the tests (`testPerson` with a string
name and an int age). -/
structure PersonR where
  pname : GoStr
  page : Int

/-- Scenario A catalog: string field `name` of width 10, int field
`age` of width 4. -/
def regScenA : Registry PersonR :=
  registerField
    (registerField (newRegistry PersonR)
      (bString (bWidth (bField PersonR (gs "name") (gs "Name") (gs "t")) 10)
        (fun p => p.pname)))
    (bInt (bWidth (bField PersonR (gs "age") (gs "Age") (gs "t")) 4)
      (fun p => p.page))

/-- Scenario A record. -/
def recA : PersonR := { pname := gs "Alice", page := 30 }

/-- The program compiled from Scenario A's catalog and `"name,age"`
with default options. -/
def progA : Program PersonR :=
  (compileDefault regScenA [] 9 (gs "name,age")).toOption.getD {}

/-- The error of a compilation result, if any. -/
def errOf {β : Type} : Except GoErr β → Option GoErr
  | .error e => some e
  | .ok _ => none

/-- A catalog mutation: re-register a field (same or new name),
redefine a collection, or override a default spec. -/
inductive RegOp (α : Type) where
  | register : Field α → RegOp α
  | defineColl : GoStr → GoStr → List GoStr → RegOp α
  | setDefs : GoStr → GoStr → RegOp α

/-- Apply one catalog mutation. -/
def applyRegOp {α : Type} (r : Registry α) : RegOp α → Registry α
  | .register f => registerField r f
  | .defineColl n d m => defineCollection r n d m
  | .setDefs n s => setDefaults r n s

/-- The construction-time state: the mutable catalog plus the programs
compiled so far (a program, once built, is only ever read). -/
structure SysState (α : Type) where
  reg : Registry α
  progs : List (Program α)

/-- A construction step: either mutate the catalog or compile a spec
against the catalog's current state (storing the program on success). -/
inductive SysOp (α : Type) where
  | mutate : RegOp α → SysOp α
  | compileStep : List (GoStr × GoStr) → Nat → GoStr → Options → SysOp α

/-- Step semantics for construction. -/
def stepSys {α : Type} (s : SysState α) : SysOp α → SysState α
  | .mutate op => { s with reg := applyRegOp s.reg op }
  | .compileStep ord fuel spec opts =>
    match compileWithOptions s.reg ord fuel spec opts with
    | .ok p => { s with progs := s.progs ++ [p] }
    | .error _ => s

/-- Run a sequence of construction steps. -/
def runSys {α : Type} (s : SysState α) (ops : List (SysOp α)) : SysState α :=
  ops.foldl stepSys s

/-- The defaults entry an (already trimmed) `@`-token expands through:
for `@default` the first entry of the iteration order, for
`@name` the defaults-map entry of `name`. -/
def tokTarget {α : Type} (reg : Registry α) (ord : List (GoStr × GoStr))
    (tok : GoStr) : Option (GoStr × GoStr) :=
  if tok.head? = some 64 then
    if tok.tail = defaultKey then ord.head?
    else
      match mapGet reg.defaults tok.tail with
      | some s => some (tok.tail, s)
      | none => none
  else none

/-- Expansion rank of a trimmed token under a rank function on
collection names: one more than the rank of the referenced collection,
zero when the token expands nothing. -/
def tokRank {α : Type} (reg : Registry α) (ord : List (GoStr × GoStr))
    (rk : GoStr → Nat) (tok : GoStr) : Nat :=
  match tokTarget reg ord tok with
  | some (k, _) => rk k + 1
  | none => 0

/-- Every token of `spec` has expansion rank at most `r`. -/
abbrev SpecBound {α : Type} (reg : Registry α) (ord : List (GoStr × GoStr))
    (rk : GoStr → Nat) (r : Nat) (spec : GoStr) : Prop :=
  ∀ t ∈ splitComma spec, tokRank reg ord rk (goTrim t) ≤ r

/-- The acyclicity witness for the collection/default reference graph:
a rank function under which every default spec only references
strictly lower-ranked collections, and an iteration order drawn from
the defaults map. -/
abbrev DefaultsRanked {α : Type} (reg : Registry α) (ord : List (GoStr × GoStr))
    (rk : GoStr → Nat) : Prop :=
  (∀ e ∈ reg.defaults, SpecBound reg ord rk (rk e.1) e.2) ∧
    ∀ e ∈ ord, e ∈ reg.defaults

/-- A token that a cyclic expansion walks over without error and
without expanding: blank, or a plain registered field token. -/
def PreOK {α : Type} (reg : Registry α) (u : GoStr) : Prop :=
  goTrim u = [] ∨
    ((goTrim u).head? ≠ some 64 ∧ ∃ f, parsePlainTok reg (goTrim u) = .ok f)

/-- An infinite chain of collection references: collection `c i`'s
default spec `s i` reaches the token `@c (i+1)` after only `PreOK`
tokens.  A default spec that directly or transitively references its
own collection name yields such a chain by unrolling the cycle. -/
def RefChain {α : Type} (reg : Registry α) (c s : Nat → GoStr) : Prop :=
  (∀ i, c i ≠ defaultKey) ∧
    (∀ i, mapGet reg.defaults (c i) = some (s i)) ∧
    ∀ i, ∃ pre t rest, splitComma (s i) = pre ++ t :: rest ∧
      goTrim t = 64 :: c (i + 1) ∧ ∀ u ∈ pre, PreOK reg u

/-- Catalog for the C1 failing input: a single string field `name` of
width 10. -/
def regC1 : Registry PersonR :=
  registerField (newRegistry PersonR)
    (bString (bWidth (bField PersonR (gs "name") (gs "Name") (gs "t")) 10)
      (fun p => p.pname))

/-- Program of the C1 failing input: spec `"name"`, default options, so
the single column is the last column with pad-last-column unset. -/
def progC1 : Program PersonR :=
  (compileDefault regC1 [] 9 (gs "name")).toOption.getD {}

/-- Catalog with two registered default specs (collections `a` and `b`)
for the determinism counterexample. -/
def regC2 : Registry PersonR :=
  defineCollection
    (defineCollection regScenA (gs "a") (gs "name") [gs "name"])
    (gs "b") (gs "age") [gs "age"]

/-- One possible defaults-map iteration order of `regC2`. -/
def ordC2a : List (GoStr × GoStr) := [(gs "a", gs "name"), (gs "b", gs "age")]

/-- The other possible defaults-map iteration order of `regC2`. -/
def ordC2b : List (GoStr × GoStr) := [(gs "b", gs "age"), (gs "a", gs "name")]

/-- Record whose string value carries a trailing space, for the padding
round-trip counterexample. -/
def recC5 : PersonR := { pname := gs "a ", page := 30 }

/-- A discarded column placeholder for safe list extraction. -/
def dummyCol (α : Type) : CompiledCol α := { width := 0, write := fun l _ => l }

/-- Acyclic catalog for the termination claim: collection `basic` whose
default spec expands plain fields only. -/
def regC8a : Registry PersonR :=
  defineCollection regScenA (gs "basic") (gs "name,age") [gs "name", gs "age"]

/-- Cyclic catalog: collection `a` whose default spec is `"@a"`. -/
def regC8b : Registry PersonR :=
  defineCollection regScenA (gs "a") (gs "@a") [gs "name"]

/-- A string field of width 3, for truncation instances. -/
def fieldW3 : Field PersonR :=
  bString (bWidth (bField PersonR (gs "name") (gs "Name") (gs "t")) 3)
    (fun p => p.pname)

/-- Record with the short value `"hi"` (no trailing space). -/
def recHi : PersonR := { pname := gs "hi", page := 30 }

/-- Construction state holding the C1 catalog and its compiled
program. -/
def sysW : SysState PersonR := { reg := regC1, progs := [progC1] }

/-- Mutations performed after compilation: re-register `name` with a
different display, width and kind, and register a default spec. -/
def opsW : List (SysOp PersonR) :=
  [.mutate (.register (bInt (bWidth (bField PersonR (gs "name") (gs "N2") (gs "t")) 7)
      (fun p => p.page))),
   .mutate (.setDefs (gs "x") (gs "name")),
   .mutate (.defineColl (gs "c") (gs "name") [gs "name"])]

theorem writeRowAux_eq_formatRowAux {α : Type} (sep : GoStr) (v : α) :
    ∀ (cols : List (CompiledCol α)) (i : Nat) (line : GoStr),
      writeRowAux sep v cols i line = formatRowAux sep v cols i line := by
  intro cols
  induction cols with
  | nil => intro i line; rfl
  | cons c rest ih =>
    intro i line
    simp only [writeRowAux, formatRowAux]
    exact ih (i + 1) _

theorem mapGet_mem {β : Type} :
    ∀ (m : List (GoStr × β)) (k : GoStr) (v : β),
      mapGet m k = some v → (k, v) ∈ m := by
  intro m
  induction m with
  | nil => intro k v h; exact absurd h (by simp [mapGet])
  | cons e rest ih =>
    intro k v h
    by_cases hk : e.1 = k
    · refine List.mem_cons.mpr (Or.inl ?_)
      have hv : some e.2 = some v := by
        simpa [mapGet, hk] using h
      simp only [Option.some.injEq] at hv
      have : (k, v) = (e.1, e.2) := by rw [hk, hv]
      rw [this]
    · exact List.mem_cons.mpr (Or.inr (ih k v (by simpa [mapGet, hk] using h)))

theorem rtrimSpaces_append_spaces (l : GoStr) (k : Nat) :
    rtrimSpaces (l ++ List.replicate k 32) = rtrimSpaces l := by
  unfold rtrimSpaces
  rw [List.reverse_append, List.reverse_replicate]
  congr 1
  induction k with
  | zero => simp
  | succ n ih => simp [List.replicate_succ, ih]

theorem padBytesLeft_short (dst val : GoStr) (width : Int)
    (h : ¬ (val.length : Int) > width) :
    padBytesLeft dst val width =
      (dst ++ val) ++ List.replicate (width - (val.length : Int)).toNat 32 := by
  simp [padBytesLeft, h]

theorem padBytesLeft_long (dst val : GoStr) (width : Int)
    (h : (val.length : Int) > width) :
    padBytesLeft dst val width = dst ++ val.take width.toNat := by
  simp [padBytesLeft, h]

theorem makeWriter_write_eq_pad {α : Type} (f : Field α) (noPad : Bool) (v : α)
    (bs line : GoStr) (hval : formattedValue f v = some bs) :
    (makeWriter f noPad).write line v = padBytesLeft line bs f.width := by
  by_cases h1 : f.kind = KindString
  · have hb : f.getString v = bs := by simpa [formattedValue, h1] using hval
    simp [makeWriter, h1, padLeft, hb]
  · by_cases h2 : f.kind = KindInt
    · have hb : goIntDec (f.getInt v) = bs := by
        simpa [formattedValue, h1, h2, KindString, KindInt] using hval
      simp [makeWriter, h1, h2, hb, KindString, KindInt]
    · by_cases h3 : f.kind = KindFloat
      · have hb : f.getFloatFmt (if f.precision < 0 then 2 else f.precision) v = bs := by
          simpa [formattedValue, h1, h2, h3, KindString, KindInt, KindFloat] using hval
        simp [makeWriter, h1, h2, h3, hb, KindString, KindInt, KindFloat]
      · by_cases h4 : f.kind = KindCustom
        · have hb : f.getCustom [] v = bs := by
            simpa [formattedValue, h1, h2, h3, h4, KindString, KindInt, KindFloat,
              KindCustom] using hval
          simp [makeWriter, h1, h2, h3, h4, hb, KindString, KindInt, KindFloat,
            KindCustom]
        · exact absurd hval (by simp [formattedValue, h1, h2, h3, h4])

/-- C4: for every column of any of the four value kinds with positive
width, when the formatted value's byte length exceeds the width the
bytes the column appends to the row are exactly `width` bytes and are
precisely the first `width` bytes of the value's full representation. -/
theorem c4_truncation_is_prefix_of_value {α : Type} (f : Field α) (noPad : Bool)
    (v : α) (bs line : GoStr) (hval : formattedValue f v = some bs)
    (hpos : 0 < f.width) (hlen : (bs.length : Int) > f.width) :
    (makeWriter f noPad).write line v = line ++ bs.take f.width.toNat ∧
      (bs.take f.width.toNat).length = f.width.toNat := by
  have hw : f.width.toNat ≤ bs.length := by omega
  constructor
  · rw [makeWriter_write_eq_pad f noPad v bs line hval]
    exact padBytesLeft_long _ _ _ hlen
  · rw [List.length_take]
    exact Nat.min_eq_left hw

/-- C4 witness: the width-3 string column truncates the five-byte value
`"Alice"` to its first three bytes. -/
theorem c4_truncation_is_prefix_of_value_witness :
    (makeWriter fieldW3 false).write [] recA
        = [] ++ (gs "Alice").take fieldW3.width.toNat ∧
      ((gs "Alice").take fieldW3.width.toNat).length = fieldW3.width.toNat := by
  exact c4_truncation_is_prefix_of_value fieldW3 false recA (gs "Alice") []
    (by decide) (by decide) (by decide)

/-- C5 amended: for every column and every value of byte length at most
the column width, right-trimming the rendered column bytes of trailing
ASCII spaces reproduces the original formatted value provided that
value does not itself end in an ASCII space (the extra condition the
counterexample forces; every row column is padded by the current
writer, which subsumes the claim's non-last / pad-last-column cases). -/
theorem c5_padding_round_trip_amended {α : Type} (f : Field α) (noPad : Bool)
    (v : α) (bs : GoStr) (hval : formattedValue f v = some bs)
    (hlen : (bs.length : Int) ≤ f.width) (hnt : rtrimSpaces bs = bs) :
    rtrimSpaces ((makeWriter f noPad).write [] v) = bs := by
  rw [makeWriter_write_eq_pad f noPad v bs [] hval,
    padBytesLeft_short _ _ _ (by omega)]
  simp only [List.nil_append]
  rw [rtrimSpaces_append_spaces]
  exact hnt

/-- C5 witness: the width-3 string column renders `"hi"` as `"hi "`,
and right-trimming recovers `"hi"`. -/
theorem c5_padding_round_trip_amended_witness :
    rtrimSpaces ((makeWriter fieldW3 false).write [] recHi) = gs "hi" := by
  exact c5_padding_round_trip_amended fieldW3 false recHi (gs "hi")
    (by decide) (by decide) (by decide)

theorem parseTokensF_cons_blank {α : Type} (reg : Registry α)
    (ord : List (GoStr × GoStr)) (recur : GoStr → Except GoErr (List (Field α)))
    (t : GoStr) (ts : List GoStr) (h : goTrim t = []) :
    parseTokensF reg ord recur (t :: ts) = parseTokensF reg ord recur ts := by
  simp [parseTokensF, h]

theorem parseTokensF_cons_default_nil {α : Type} (reg : Registry α)
    (ord : List (GoStr × GoStr)) (recur : GoStr → Except GoErr (List (Field α)))
    (t : GoStr) (ts : List GoStr) (h : goTrim t = 64 :: defaultKey)
    (ho : ord = []) :
    parseTokensF reg ord recur (t :: ts) = parseTokensF reg ord recur ts := by
  subst ho
  simp [parseTokensF, h]

theorem parseTokensF_cons_default_cons {α : Type} (reg : Registry α)
    (e : GoStr × GoStr) (ord ord' : List (GoStr × GoStr))
    (recur : GoStr → Except GoErr (List (Field α)))
    (t : GoStr) (ts : List GoStr) (h : goTrim t = 64 :: defaultKey)
    (ho : ord = e :: ord') :
    parseTokensF reg ord recur (t :: ts) =
      (match recur e.2 with
       | .error er => .error (.wrapDefault er)
       | .ok expanded =>
         match parseTokensF reg ord recur ts with
         | .error er => .error er
         | .ok rest => .ok (expanded ++ rest)) := by
  subst ho
  simp [parseTokensF, h]

theorem parseTokensF_cons_coll {α : Type} (reg : Registry α)
    (ord : List (GoStr × GoStr)) (recur : GoStr → Except GoErr (List (Field α)))
    (t : GoStr) (ts : List GoStr) (nm ds : GoStr) (h : goTrim t = 64 :: nm)
    (hnd : nm ≠ defaultKey) (hget : mapGet reg.defaults nm = some ds) :
    parseTokensF reg ord recur (t :: ts) =
      (match recur ds with
       | .error er => .error (.wrapColl nm er)
       | .ok expanded =>
         match parseTokensF reg ord recur ts with
         | .error er => .error er
         | .ok rest => .ok (expanded ++ rest)) := by
  simp [parseTokensF, h, hnd, hget]

theorem parseTokensF_cons_coll_none {α : Type} (reg : Registry α)
    (ord : List (GoStr × GoStr)) (recur : GoStr → Except GoErr (List (Field α)))
    (t : GoStr) (ts : List GoStr) (nm : GoStr) (h : goTrim t = 64 :: nm)
    (hnd : nm ≠ defaultKey) (hget : mapGet reg.defaults nm = none) :
    parseTokensF reg ord recur (t :: ts) = .error (.unknownCollection nm) := by
  simp [parseTokensF, h, hnd, hget]

theorem parseTokensF_cons_plain {α : Type} (reg : Registry α)
    (ord : List (GoStr × GoStr)) (recur : GoStr → Except GoErr (List (Field α)))
    (t : GoStr) (ts : List GoStr) (hne : goTrim t ≠ [])
    (hat : (goTrim t).head? ≠ some 64) :
    parseTokensF reg ord recur (t :: ts) =
      (match parsePlainTok reg (goTrim t) with
       | .error er => .error er
       | .ok f =>
         match parseTokensF reg ord recur ts with
         | .error er => .error er
         | .ok rest => .ok (f :: rest)) := by
  simp [parseTokensF, hne, hat]

theorem parseFieldSpec_no_fuel (tok : GoStr) (e : GoErr)
    (h : parseFieldSpec tok = .error e) : containsFuel e = false := by
  unfold parseFieldSpec at h
  split at h
  · dsimp only at h
    split at h
    · cases h; rfl
    · split at h
      · cases h; rfl
      · cases h
  · cases h

theorem parsePlainTok_no_fuel {α : Type} (reg : Registry α) (tok : GoStr)
    (e : GoErr) (h : parsePlainTok reg tok = .error e) : containsFuel e = false := by
  unfold parsePlainTok at h
  split at h
  · next e' he' =>
    cases h
    exact parseFieldSpec_no_fuel tok e he'
  · next nm wd hw hfs =>
    split at h
    · cases h; rfl
    · split at h
      · split at h
        · cases h; rfl
        · cases h
      · cases h

theorem parseSpec_chain_diverges {α : Type} (reg : Registry α)
    (ord : List (GoStr × GoStr)) (c s : Nat → GoStr) (hch : RefChain reg c s) :
    ∀ n i, resFuel (parseSpecF reg ord n (s i)) = true := by
  obtain ⟨hcd, hlk, hsp⟩ := hch
  intro n
  induction n with
  | zero => intro i; rfl
  | succ n ih =>
    intro i
    obtain ⟨pre, t, rest, hdec, htr, hpre⟩ := hsp i
    have hstep : parseSpecF reg ord (n + 1) (s i)
        = parseTokensF reg ord (parseSpecF reg ord n) (splitComma (s i)) := rfl
    rw [hstep, hdec]
    clear hstep hdec
    induction pre with
    | nil =>
      cases hr : parseSpecF reg ord n (s (i + 1)) with
      | error er =>
        have hcf : containsFuel er = true := by
          have hx := ih (i + 1)
          rw [hr] at hx
          exact hx
        rw [List.nil_append,
          parseTokensF_cons_coll reg ord _ t rest (c (i + 1)) (s (i + 1)) htr
            (hcd (i + 1)) (hlk (i + 1)), hr]
        simpa [resFuel, containsFuel] using hcf
      | ok fs =>
        have hx := ih (i + 1)
        rw [hr] at hx
        exact absurd hx (by simp [resFuel])
    | cons u pre' ihp =>
      have hu : PreOK reg u := hpre u (List.mem_cons_self u pre')
      have hpre' : ∀ x ∈ pre', PreOK reg x :=
        fun x hx => hpre x (List.mem_cons_of_mem u hx)
      have htail := ihp hpre'
      by_cases h0 : goTrim u = []
      · rw [List.cons_append, parseTokensF_cons_blank reg ord _ u _ h0]
        exact htail
      · rcases hu with hu | ⟨hu64, f, hupl⟩
        · exact absurd hu h0
        rw [List.cons_append,
          parseTokensF_cons_plain reg ord _ u _ h0 hu64, hupl]
        cases hq : parseTokensF reg ord (parseSpecF reg ord n) (pre' ++ t :: rest) with
        | error er =>
          rw [hq] at htail
          simpa [resFuel] using htail
        | ok rest2 =>
          rw [hq] at htail
          exact absurd htail (by simp [resFuel])

theorem parseTokens_stable_below {α : Type} (reg : Registry α)
    (ord : List (GoStr × GoStr)) (rk : GoStr → Nat)
    (H : DefaultsRanked reg ord rk) (r : Nat)
    (hstable : ∀ r' < r, ∀ spec, SpecBound reg ord rk r' spec →
      ∀ m₁ m₂, r' < m₁ → r' < m₂ →
        parseSpecF reg ord m₁ spec = parseSpecF reg ord m₂ spec ∧
          resFuel (parseSpecF reg ord m₁ spec) = false) :
    ∀ toks, (∀ t ∈ toks, tokRank reg ord rk (goTrim t) ≤ r) →
      ∀ m₁ m₂, r ≤ m₁ → r ≤ m₂ →
        parseTokensF reg ord (parseSpecF reg ord m₁) toks
            = parseTokensF reg ord (parseSpecF reg ord m₂) toks ∧
          resFuel (parseTokensF reg ord (parseSpecF reg ord m₁) toks) = false := by
  intro toks
  induction toks with
  | nil => intro _ m₁ m₂ _ _; exact ⟨rfl, rfl⟩
  | cons t ts ihts =>
    intro hb m₁ m₂ hm₁ hm₂
    have hbt := hb t (List.mem_cons_self t ts)
    have hbts : ∀ u ∈ ts, tokRank reg ord rk (goTrim u) ≤ r :=
      fun u hu => hb u (List.mem_cons_of_mem t hu)
    obtain ⟨hts_eq, hts_f⟩ := ihts hbts m₁ m₂ hm₁ hm₂
    by_cases h0 : goTrim t = []
    · rw [parseTokensF_cons_blank reg ord _ t ts h0,
        parseTokensF_cons_blank reg ord _ t ts h0]
      exact ⟨hts_eq, hts_f⟩
    by_cases h64 : (goTrim t).head? = some 64
    · obtain ⟨nm, hnm⟩ : ∃ nm, goTrim t = 64 :: nm := by
        cases hgt : goTrim t with
        | nil => exact absurd hgt h0
        | cons b l =>
          rw [hgt] at h64
          simp only [List.head?_cons, Option.some.injEq] at h64
          exact ⟨l, by rw [h64]⟩
      by_cases hdef : nm = defaultKey
      · subst hdef
        by_cases hord0 : ord = []
        · rw [parseTokensF_cons_default_nil reg ord _ t ts hnm hord0,
            parseTokensF_cons_default_nil reg ord _ t ts hnm hord0]
          exact ⟨hts_eq, hts_f⟩
        · obtain ⟨e, ord', hord⟩ : ∃ e ord', ord = e :: ord' := by
            cases ord with
            | nil => exact absurd rfl hord0
            | cons a b => exact ⟨a, b, rfl⟩
          have htt : tokTarget reg ord (goTrim t) = some e := by
            simp [tokTarget, hnm, hord]
          have hrk : rk e.1 + 1 ≤ r := by
            have hx := hbt
            simp only [tokRank, htt] at hx
            exact hx
          have hmem : e ∈ reg.defaults :=
            H.2 e (by rw [hord]; exact List.mem_cons_self _ _)
          have hSB : SpecBound reg ord rk (rk e.1) e.2 := H.1 e hmem
          have hrec := hstable (rk e.1) (by omega) e.2 hSB m₁ m₂ (by omega) (by omega)
          rw [parseTokensF_cons_default_cons reg e ord ord' _ t ts hnm hord,
            parseTokensF_cons_default_cons reg e ord ord' _ t ts hnm hord,
            hrec.1, hts_eq]
          refine ⟨rfl, ?_⟩
          have hf2 : resFuel (parseSpecF reg ord m₂ e.2) = false := by
            rw [← hrec.1]; exact hrec.2
          have hft2 : resFuel (parseTokensF reg ord (parseSpecF reg ord m₂) ts)
              = false := by
            rw [← hts_eq]; exact hts_f
          cases hc : parseSpecF reg ord m₂ e.2 with
          | error er =>
            rw [hc] at hf2
            simpa [resFuel, containsFuel] using hf2
          | ok ex =>
            cases hd : parseTokensF reg ord (parseSpecF reg ord m₂) ts with
            | error er =>
              rw [hd] at hft2
              simpa [resFuel] using hft2
            | ok rest => simp [resFuel]
      · cases hget : mapGet reg.defaults nm with
        | some ds =>
          have htt : tokTarget reg ord (goTrim t) = some (nm, ds) := by
            simp [tokTarget, hnm, hdef, hget]
          have hrk : rk nm + 1 ≤ r := by
            have hx := hbt
            simp only [tokRank, htt] at hx
            exact hx
          have hmem : (nm, ds) ∈ reg.defaults := mapGet_mem _ _ _ hget
          have hSB : SpecBound reg ord rk (rk nm) ds := H.1 (nm, ds) hmem
          have hrec := hstable (rk nm) (by omega) ds hSB m₁ m₂ (by omega) (by omega)
          rw [parseTokensF_cons_coll reg ord _ t ts nm ds hnm hdef hget,
            parseTokensF_cons_coll reg ord _ t ts nm ds hnm hdef hget,
            hrec.1, hts_eq]
          refine ⟨rfl, ?_⟩
          have hf2 : resFuel (parseSpecF reg ord m₂ ds) = false := by
            rw [← hrec.1]; exact hrec.2
          have hft2 : resFuel (parseTokensF reg ord (parseSpecF reg ord m₂) ts)
              = false := by
            rw [← hts_eq]; exact hts_f
          cases hc : parseSpecF reg ord m₂ ds with
          | error er =>
            rw [hc] at hf2
            simpa [resFuel, containsFuel] using hf2
          | ok ex =>
            cases hd : parseTokensF reg ord (parseSpecF reg ord m₂) ts with
            | error er =>
              rw [hd] at hft2
              simpa [resFuel] using hft2
            | ok rest => simp [resFuel]
        | none =>
          rw [parseTokensF_cons_coll_none reg ord _ t ts nm hnm hdef hget,
            parseTokensF_cons_coll_none reg ord _ t ts nm hnm hdef hget]
          exact ⟨rfl, by simp [resFuel, containsFuel]⟩
    · rw [parseTokensF_cons_plain reg ord _ t ts h0 h64,
        parseTokensF_cons_plain reg ord _ t ts h0 h64, hts_eq]
      refine ⟨rfl, ?_⟩
      have hft2 : resFuel (parseTokensF reg ord (parseSpecF reg ord m₂) ts)
          = false := by
        rw [← hts_eq]; exact hts_f
      cases hp : parsePlainTok reg (goTrim t) with
      | error er =>
        simpa [resFuel] using parsePlainTok_no_fuel reg _ er hp
      | ok f =>
        cases hd : parseTokensF reg ord (parseSpecF reg ord m₂) ts with
        | error er =>
          rw [hd] at hft2
          simpa [resFuel] using hft2
        | ok rest => simp [resFuel]

theorem parseSpecF_stable {α : Type} (reg : Registry α)
    (ord : List (GoStr × GoStr)) (rk : GoStr → Nat)
    (H : DefaultsRanked reg ord rk) :
    ∀ (r : Nat) (spec : GoStr), SpecBound reg ord rk r spec →
      ∀ m₁ m₂, r < m₁ → r < m₂ →
        parseSpecF reg ord m₁ spec = parseSpecF reg ord m₂ spec ∧
          resFuel (parseSpecF reg ord m₁ spec) = false := by
  intro r
  induction r using Nat.strong_induction_on with
  | _ r IH =>
    intro spec hSB m₁ m₂ hm₁ hm₂
    obtain ⟨n₁, rfl⟩ : ∃ n, m₁ = n + 1 := ⟨m₁ - 1, by omega⟩
    obtain ⟨n₂, rfl⟩ : ∃ n, m₂ = n + 1 := ⟨m₂ - 1, by omega⟩
    exact parseTokens_stable_below reg ord rk H r IH (splitComma spec) hSB
      n₁ n₂ (by omega) (by omega)

/-- C8: spec expansion terminates for every catalog whose
collection/default reference graph is acyclic — witnessed by a rank
function under which every default spec references only lower-ranked
collections: the fuel-modelled expansion is fuel-independent and never
exhausts fuel once the fuel exceeds the spec's rank.  Conversely, for a
catalog containing a reference cycle (a default spec that directly or
transitively reaches a `@`-reference back to its own collection,
unrolled as a `RefChain`), expansion of a spec reaching that reference
exhausts every fuel bound, i.e. the unguarded Go recursion never
terminates. -/
theorem c8_expansion_termination {α : Type} :
    (∀ (reg : Registry α) (ord : List (GoStr × GoStr)) (rk : GoStr → Nat),
      DefaultsRanked reg ord rk →
      ∀ (r : Nat) (spec : GoStr), SpecBound reg ord rk r spec →
      ∀ m₁ m₂ : Nat, r < m₁ → r < m₂ →
        parseSpecF reg ord m₁ spec = parseSpecF reg ord m₂ spec ∧
          resFuel (parseSpecF reg ord m₁ spec) = false) ∧
    (∀ (reg : Registry α) (ord : List (GoStr × GoStr)) (c s : Nat → GoStr),
      RefChain reg c s → ∀ n i, resFuel (parseSpecF reg ord n (s i)) = true) := by
  constructor
  · intro reg ord rk H r spec
    exact parseSpecF_stable reg ord rk H r spec
  · intro reg ord c s hch
    exact parseSpec_chain_diverges reg ord c s hch

/-- C8 witness: on the acyclic catalog `regC8a` the expansion of
`"@basic"` is identical at fuel 2 and fuel 3 and exhausts no fuel,
while on the cyclic catalog `regC8b` (default spec of `a` is `"@a"`)
the expansion of `"@a"` runs out of any fuel. -/
theorem c8_expansion_termination_witness :
    (parseSpecF regC8a regC8a.defaults 2 (gs "@basic")
        = parseSpecF regC8a regC8a.defaults 3 (gs "@basic") ∧
      resFuel (parseSpecF regC8a regC8a.defaults 2 (gs "@basic")) = false) ∧
      resFuel (parseSpecF regC8b [] 5 (gs "@a")) = true := by
  constructor
  · exact (c8_expansion_termination (α := PersonR)).1 regC8a regC8a.defaults
      (fun _ => 0) (by decide) 1 (gs "@basic") (by decide) 2 3 (by decide)
      (by decide)
  · exact (c8_expansion_termination (α := PersonR)).2 regC8b []
      (fun _ => gs "a") (fun _ => gs "@a")
      ⟨fun _ => by show gs "a" ≠ defaultKey; decide,
        fun _ => by show mapGet regC8b.defaults (gs "a") = some (gs "@a"); decide,
        fun _ => ⟨[], gs "@a", [],
          by show splitComma (gs "@a") = [] ++ gs "@a" :: []; decide,
          by show goTrim (gs "@a") = 64 :: gs "a"; decide,
          by simp⟩⟩ 5 0

/-- C1: for the compiled program of catalog `regC1` (string field
`name`, width 10) and spec `"name"` under default options, the single
column is in no-pad mode (last column, pad-last-column unset), yet the
rendered row is the value padded with trailing spaces to width 10 —
`makeWriter` ignores its no-pad argument, contradicting the library's
own unit tests and the `Options` documentation, which require the
unpadded value. -/
theorem c1_no_pad_mode_ignored_by_row_writer :
    formatRow progC1 recA = gs "Alice     " ∧
      formatRow progC1 recA ≠ gs "Alice" := by
  exact ⟨by decide, by decide⟩

/-- C3 counterexample: the Scenario A program (fields `name` width 10
and `age` width 4, spec `"name,age"`, default two-space separator,
record Alice / 30) produces neither the claimed header
`"Name      Age"` nor the claimed row `"Alice     30"` — both claimed
strings omit the two-byte separator, and the row additionally carries
the last column's padding. -/
theorem c3_counterexample :
    progA.header ≠ gs "Name      Age" ∧
      formatRow progA recA ≠ gs "Alice     30" := by
  exact ⟨by decide, by decide⟩

/-- C3 amended: on Scenario A the code produces the header
`"Name        Age"` (display padded to 10, two-space separator,
unpadded last display) and the row `"Alice       30  "` (value padded
to 10, separator, value padded to 4 — the row writer pads even the
last column). -/
theorem c3_amended_scenario_a :
    progA.header = gs "Name        Age" ∧
      formatRow progA recA = gs "Alice       30  " := by
  exact ⟨by decide, by decide⟩

/-- C9: for every program and record, FormatRow returns exactly the
bytes that one WriteRow call passes to the sink minus the trailing
newline byte, and WriteRow issues exactly one write call. -/
theorem c9_formatRow_refines_writeRow {α : Type} (p : Program α) (v : α) :
    writeRowChunks p v = [formatRow p v ++ [10]] ∧
      (writeRowChunks p v).length = 1 := by
  unfold writeRowChunks formatRow
  rw [writeRowAux_eq_formatRowAux]
  exact ⟨rfl, rfl⟩

/-- C2 counterexample: catalog `regC2` registers two default specs; the
two iteration orders of its defaults map are both permutations of the
registered entries, yet compiling `"@default"` twice — once under each
order, as two runs of the Go map iteration may do — renders the same
record to different bytes. -/
theorem c2_counterexample :
    ordC2a.Perm regC2.defaults ∧ ordC2b.Perm regC2.defaults ∧
      (compileDefault regC2 ordC2a 9 (gs "@default")).toOption.map
          (fun p => formatRow p recA)
        ≠ (compileDefault regC2 ordC2b 9 (gs "@default")).toOption.map
          (fun p => formatRow p recA) := by
  refine ⟨by decide, by decide, by decide⟩

/-- C5 counterexample: in the Scenario A program the first column
(non-last, hence a padded column by the claim's derivation) renders the
two-byte value `"a "` (length 2 at most the width 10) as
`"a         "`; right-trimming trailing spaces yields `"a"`, not the
original value — the round-trip fails for values that themselves end in
an ASCII space. -/
theorem c5_counterexample :
    rtrimSpaces (((progA.columns.head?).getD (dummyCol PersonR)).write [] recC5)
        ≠ gs "a " ∧
      ((progA.columns.head?).getD (dummyCol PersonR)).write [] recC5
        = gs "a         " := by
  exact ⟨by decide, by decide⟩

/-- C6 counterexample: the token `"xyz:0"` has a width that parses to
the non-positive value 0, yet against a catalog where `xyz` is not
registered, compilation fails with UnknownField, not InvalidWidth —
the code looks the field up before checking positivity. -/
theorem c6_counterexample :
    errOf (compileWithOptions (newRegistry PersonR) [] 9 (gs "xyz:0") {})
        = some (.unknownField (gs "xyz")) ∧
      isInvalidWidthErr (GoErr.unknownField (gs "xyz")) = false := by
  exact ⟨by decide, by decide⟩

/-- C2 amended: compilation and rendering are deterministic whenever
the catalog has at most one registered default spec, so that the
defaults-map iteration order is forced; with several registered
defaults the `@default` choice is iteration-order dependent (see the
counterexample). -/
theorem c2_determinism_amended {α : Type} (reg : Registry α)
    (ord1 ord2 : List (GoStr × GoStr)) (fuel : Nat) (spec : GoStr)
    (opts : Options) (v : α) (hlen : reg.defaults.length ≤ 1)
    (h1 : ord1.Perm reg.defaults) (h2 : ord2.Perm reg.defaults) :
    compileWithOptions reg ord1 fuel spec opts
        = compileWithOptions reg ord2 fuel spec opts ∧
      (compileWithOptions reg ord1 fuel spec opts).toOption.map
          (fun p => formatRow p v)
        = (compileWithOptions reg ord2 fuel spec opts).toOption.map
          (fun p => formatRow p v) := by
  have hord : ord1 = ord2 := by
    cases hdl : reg.defaults with
    | nil =>
      rw [hdl] at h1 h2
      rw [List.Perm.eq_nil h1, List.Perm.eq_nil h2]
    | cons e rest =>
      cases rest with
      | nil =>
        rw [hdl] at h1 h2
        rw [List.perm_singleton.mp h1, List.perm_singleton.mp h2]
      | cons e2 rest2 =>
        rw [hdl] at hlen
        simp at hlen
  rw [hord]
  exact ⟨rfl, rfl⟩

/-- C2 amended witness: with the single-default catalog `regC8a`, the
two (equal) iteration orders give identical compilation results and
identical rendered bytes. -/
theorem c2_determinism_amended_witness :
    compileWithOptions regC8a [(gs "basic", gs "name,age")] 9 (gs "@default") {}
        = compileWithOptions regC8a [(gs "basic", gs "name,age")] 9
          (gs "@default") {} ∧
      (compileWithOptions regC8a [(gs "basic", gs "name,age")] 9 (gs "@default")
            {}).toOption.map (fun p => formatRow p recA)
        = (compileWithOptions regC8a [(gs "basic", gs "name,age")] 9
            (gs "@default") {}).toOption.map (fun p => formatRow p recA) := by
  exact c2_determinism_amended regC8a [(gs "basic", gs "name,age")]
    [(gs "basic", gs "name,age")] 9 (gs "@default") {} recA (by decide)
    (by decide) (by decide)

theorem splitComma_no_comma :
    ∀ s : GoStr, (∀ b ∈ s, b ≠ (44 : UInt8)) → splitComma s = [s] := by
  intro s
  induction s with
  | nil => intro _; rfl
  | cons b rest ih =>
    intro h
    have hb : b ≠ (44 : UInt8) := h b (List.mem_cons_self b rest)
    have hr := ih (fun u m => h u (List.mem_cons_of_mem _ m))
    simp [splitComma, hr, hb]

theorem takeWhile_ne_colon (name w : GoStr)
    (h : ∀ b ∈ name, b ≠ (58 : UInt8)) :
    (name ++ 58 :: w).takeWhile (· != 58) = name := by
  induction name with
  | nil => simp [List.takeWhile]
  | cons b rest ih =>
    have hb : (b != (58 : UInt8)) = true := by
      simpa using h b (List.mem_cons_self b rest)
    have hr := ih (fun u m => h u (List.mem_cons_of_mem _ m))
    simp [List.takeWhile, hb, hr]

theorem dropWhile_ne_colon (name w : GoStr)
    (h : ∀ b ∈ name, b ≠ (58 : UInt8)) :
    (name ++ 58 :: w).dropWhile (· != 58) = 58 :: w := by
  induction name with
  | nil => simp [List.dropWhile]
  | cons b rest ih =>
    have hb : (b != (58 : UInt8)) = true := by
      simpa using h b (List.mem_cons_self b rest)
    have hr := ih (fun u m => h u (List.mem_cons_of_mem _ m))
    simp [List.dropWhile, hb, hr]

/-- C6 amended: for a token `name:w` (comma-free pieces in trimmed
form, plain field name), a width that is unparsable as an integer —
including the empty width — fails with an InvalidWidth-class error
regardless of whether `name` is registered; but a width that parses to
a non-positive value fails with InvalidWidth only when `name` is
registered, and with UnknownField(name) when it is not, because the
code resolves the field before checking positivity. -/
theorem c6_invalid_width_amended {α : Type} (reg : Registry α)
    (ord : List (GoStr × GoStr)) (fuel : Nat) (opts : Options) (name w : GoStr)
    (hn44 : ∀ b ∈ name, b ≠ (44 : UInt8)) (hw44 : ∀ b ∈ w, b ≠ (44 : UInt8))
    (hn58 : ∀ b ∈ name, b ≠ (58 : UInt8)) (hnne : name ≠ [])
    (hat : name.head? ≠ some 64) (htrt : goTrim (name ++ 58 :: w) = name ++ 58 :: w)
    (htrn : goTrim name = name) (htrw : goTrim w = w) :
    (goAtoi w = none →
      ∃ e, compileWithOptions reg ord (fuel + 1) (name ++ 58 :: w) opts = .error e
        ∧ isInvalidWidthErr e = true) ∧
    (∀ k, goAtoi w = some k → k ≤ 0 →
      (∃ f, reg.get name = some f) →
      compileWithOptions reg ord (fuel + 1) (name ++ 58 :: w) opts
        = .error (.invalidWidthVal k name)) ∧
    (∀ k, goAtoi w = some k → k ≤ 0 →
      reg.get name = none →
      compileWithOptions reg ord (fuel + 1) (name ++ 58 :: w) opts
        = .error (.unknownField name)) := by
  have hne : name ++ 58 :: w ≠ [] := by simp
  have hmem58 : (58 : UInt8) ∈ name ++ 58 :: w :=
    List.mem_append_right _ (List.mem_cons_self _ _)
  have hsplit : splitComma (name ++ 58 :: w) = [name ++ 58 :: w] := by
    refine splitComma_no_comma _ ?_
    intro b hb
    rcases List.mem_append.mp hb with h | h
    · exact hn44 b h
    · rcases List.mem_cons.mp h with h | h
      · rw [h]; decide
      · exact hw44 b h
  have hhead : (name ++ 58 :: w).head? = name.head? := by
    cases name with
    | nil => exact absurd rfl hnne
    | cons a l => rfl
  have hname_t : goTrim ((name ++ 58 :: w).takeWhile (· != 58)) = name := by
    rw [takeWhile_ne_colon name w hn58]; exact htrn
  have hw_t : goTrim (((name ++ 58 :: w).dropWhile (· != 58)).tail) = w := by
    rw [dropWhile_ne_colon name w hn58]; exact htrw
  have hlift : ∀ e, parsePlainTok reg (name ++ 58 :: w) = .error e →
      compileWithOptions reg ord (fuel + 1) (name ++ 58 :: w) opts = .error e := by
    intro e he
    have hp : parseSpecF reg ord (fuel + 1) (name ++ 58 :: w) = .error e := by
      simp only [parseSpecF, hsplit, parseTokensF, htrt, hhead]
      rw [if_neg hne, if_neg hat, he]
    simp only [compileWithOptions, hp]
    rw [if_neg hne]
  refine ⟨?_, ?_, ?_⟩
  · intro hnone
    by_cases hwnil : w = []
    · refine ⟨.emptyWidth (name ++ 58 :: w), ?_, rfl⟩
      refine hlift _ ?_
      simp only [parsePlainTok, parseFieldSpec, if_pos hmem58, hw_t]
      rw [if_pos hwnil]
    · refine ⟨.invalidWidthStr w (name ++ 58 :: w), ?_, rfl⟩
      refine hlift _ ?_
      simp only [parsePlainTok, parseFieldSpec, if_pos hmem58, hw_t, hname_t]
      rw [if_neg hwnil, hnone]
  · rintro k hk hkle ⟨f, hf⟩
    refine hlift _ ?_
    simp only [parsePlainTok, parseFieldSpec, if_pos hmem58, hw_t, hname_t]
    have hwne : w ≠ [] := by
      intro hw0
      rw [hw0] at hk
      exact absurd hk (by simp [goAtoi])
    rw [if_neg hwne, hk]
    simp only [hf, if_true]
    rw [if_pos hkle]
  · intro k hk hkle hf
    refine hlift _ ?_
    simp only [parsePlainTok, parseFieldSpec, if_pos hmem58, hw_t, hname_t]
    have hwne : w ≠ [] := by
      intro hw0
      rw [hw0] at hk
      exact absurd hk (by simp [goAtoi])
    rw [if_neg hwne, hk]
    simp only [hf]

/-- C6 amended witness: against the empty catalog, `"abc:x"` (width
unparsable) fails with an InvalidWidth-class error even though `abc` is
unregistered, and `"abc:-2"` (non-positive width, unregistered name)
fails with UnknownField. -/
theorem c6_invalid_width_amended_witness :
    (∃ e, compileWithOptions (newRegistry PersonR) [] 9 (gs "abc:x") {}
        = .error e ∧ isInvalidWidthErr e = true) ∧
      compileWithOptions (newRegistry PersonR) [] 9 (gs "abc:-2") {}
        = .error (.unknownField (gs "abc")) := by
  constructor
  · exact (c6_invalid_width_amended (newRegistry PersonR) [] 8 {} (gs "abc")
      (gs "x") (by decide) (by decide) (by decide) (by decide) (by decide)
      (by decide) (by decide) (by decide)).1 (by decide)
  · exact (c6_invalid_width_amended (newRegistry PersonR) [] 8 {} (gs "abc")
      (gs "-2") (by decide) (by decide) (by decide) (by decide) (by decide)
      (by decide) (by decide) (by decide)).2.2 (-2) (by decide) (by decide)
      (by rfl)

/-- C7: a program stored at compile time is untouched by any later
construction steps — catalog mutations (re-registering a field under
the same name, redefining collections, overriding defaults) and further
compilations — so its header, underline, and row rendering are
byte-for-byte unchanged: compilation copies the field configuration
out of the catalog. -/
theorem c7_program_immune_to_catalog_mutation {α : Type} (s : SysState α)
    (ops : List (SysOp α)) (i : Nat) (p : Program α) (v : α)
    (h : s.progs.get? i = some p) :
    (runSys s ops).progs.get? i = some p ∧
      ((runSys s ops).progs.get? i).map
          (fun q => (q.header, q.underline, formatRow q v))
        = some (p.header, p.underline, formatRow p v) := by
  have key : (runSys s ops).progs.get? i = some p := by
    induction ops generalizing s with
    | nil => exact h
    | cons op rest ih =>
      have hstep : (stepSys s op).progs.get? i = some p := by
        cases op with
        | mutate m => exact h
        | compileStep ord fuel spec opts =>
          simp only [stepSys]
          cases hc : compileWithOptions s.reg ord fuel spec opts with
          | error e => exact h
          | ok q =>
            obtain ⟨hi, _⟩ := List.get?_eq_some.mp h
            simp only [List.get?_eq_getElem?] at h ⊢
            rw [List.getElem?_append_left hi]
            exact h
      have hrun : runSys s (op :: rest) = runSys (stepSys s op) rest := rfl
      rw [hrun]
      exact ih (stepSys s op) hstep
  exact ⟨key, by rw [key]; rfl⟩

/-- C7 witness: after re-registering the `name` field with a different
width, display, and kind and redefining collections and defaults, the
previously compiled program and its rendering of the Alice record are
unchanged. -/
theorem c7_program_immune_to_catalog_mutation_witness :
    (runSys sysW opsW).progs.get? 0 = some progC1 ∧
      ((runSys sysW opsW).progs.get? 0).map
          (fun q => (q.header, q.underline, formatRow q recA))
        = some (progC1.header, progC1.underline, formatRow progC1 recA) := by
  exact c7_program_immune_to_catalog_mutation sysW opsW 0 progC1 recA rfl

/-- C10: when the catalog has no registered default specs, a
`@default` token is skipped rather than failing with
UnknownCollection — it contributes zero resolved fields — so the spec
`"@default"` alone compiles to the NoFieldsResolved error. -/
theorem c10_default_empty_defaults {α : Type} (reg : Registry α)
    (ord : List (GoStr × GoStr)) (fuel : Nat) (opts : Options)
    (hd : reg.defaults = []) (hord : ord.Perm reg.defaults) :
    parseSpecF reg ord (fuel + 1) (gs "@default") = .ok [] ∧
      compileWithOptions reg ord (fuel + 1) (gs "@default") opts
        = .error .noFieldsResolved := by
  have hne : ord = [] := by
    rw [hd] at hord
    exact List.Perm.eq_nil hord
  subst hne
  exact ⟨rfl, rfl⟩

/-- C10 witness: the Scenario A catalog registers no defaults; the spec
`"@default"` parses to zero fields and compilation fails with
NoFieldsResolved. -/
theorem c10_default_empty_defaults_witness :
    parseSpecF regScenA [] (8 + 1) (gs "@default") = .ok [] ∧
      compileWithOptions regScenA [] (8 + 1) (gs "@default") {}
        = .error .noFieldsResolved := by
  exact c10_default_empty_defaults regScenA [] 8 {} (by decide) (by decide)

end Colprint
